import Mathlib

set_option maxRecDepth 100000

/-!
Shallow embedding of the Agentic-Vision chat interface core: the duck-typed
`Part` record from the upstream client library, the streaming reducer inside
`handleSendMessage`, the live renderer `renderPart`, the export renderer inside
`generateHtmlFromMessages`, the history serialization, and the error path of
`handleSendMessage`.  JavaScript truthiness on optional string fields is made
explicit: an absent field is `none`, and a present-but-empty string is falsy.
-/

namespace AgenticVision

/-- The `thought` field of a streamed part.  The client library declares it as
a boolean, but the code defends against a string payload
(`typeof part.thought` tests), so both shapes are modelled. -/
inductive ThoughtVal where
  | bool (b : Bool)
  | str (s : String)
deriving DecidableEq, Repr

/-- The `executableCode` payload: a language tag and the code text. -/
structure ExecCode where
  language : String
  code : String
deriving DecidableEq, Repr

/-- The `codeExecutionResult` payload: an outcome tag (`OUTCOME_OK` on success)
and the captured output. -/
structure ExecResult where
  outcome : String
  output : String
deriving DecidableEq, Repr

/-- The `inlineData` payload: a MIME type and base64 data. -/
structure Blob where
  mimeType : String
  data : String
deriving DecidableEq, Repr

/-- The duck-typed `Part` record: every field optional, several may be present
at once.  `functionCall` and `functionResponse` are opaque payloads (the code
only copies them). -/
structure Part where
  text : Option String := none
  thought : Option ThoughtVal := none
  executableCode : Option ExecCode := none
  codeExecutionResult : Option ExecResult := none
  inlineData : Option Blob := none
  functionCall : Option String := none
  functionResponse : Option String := none
deriving DecidableEq, Repr

instance : Inhabited Part := ⟨{}⟩

/-- JavaScript truthiness of an optional string (`if (x)`): present and
non-empty. -/
def truthyStr (o : Option String) : Bool :=
  match o with
  | some s => s ≠ ""
  | none => false

/-- JavaScript truthiness of the `thought` field (`!!p.thought`): `false` and
the empty string are falsy, everything else present is truthy. -/
def truthyThought (o : Option ThoughtVal) : Bool :=
  match o with
  | some (.bool b) => b
  | some (.str s) => s ≠ ""
  | none => false

/-- The predicate `isMergeableText` from `handleSendMessage`: both parts carry a `text`
field (possibly empty), neither carries `executableCode`,
`codeExecutionResult` or `inlineData`, and their truthy thought flags agree. -/
def isMergeableText (p1 p2 : Part) : Bool :=
  p1.text.isSome && p2.text.isSome &&
  p1.executableCode.isNone && p2.executableCode.isNone &&
  p1.codeExecutionResult.isNone && p2.codeExecutionResult.isNone &&
  p1.inlineData.isNone && p2.inlineData.isNone &&
  (truthyThought p1.thought == truthyThought p2.thought)

/-- One step of the streaming reducer: the body of the `for (const newPart of
newParts)` loop in `handleSendMessage`, acting on the sequence built so far.
Writing `currentParts[lastPartIndex] = merged` is modelled as
`cur.dropLast ++ [merged]`. -/
def reduceOne (cur : List Part) (np : Part) : List Part :=
  if truthyStr np.text then
    match cur.getLast? with
    | some lp =>
      if isMergeableText lp np then
        cur.dropLast ++ [{ lp with text := some (lp.text.getD "" ++ np.text.getD "") }]
      else
        cur ++ [{ text := np.text, thought := np.thought }]
    | none => cur ++ [{ text := np.text, thought := np.thought }]
  else if np.executableCode.isSome then
    match cur.getLast?, np.executableCode with
    | some lp, some nec =>
      match lp.executableCode with
      | some lec =>
        if lec.language = nec.language then
          cur.dropLast ++
            [{ lp with executableCode := some { lec with code := lec.code ++ nec.code } }]
        else
          cur ++ [{ executableCode := some nec }]
      | none => cur ++ [{ executableCode := some nec }]
    | _, _ => cur ++ [{ executableCode := np.executableCode }]
  else if np.codeExecutionResult.isSome then
    cur ++ [{ codeExecutionResult := np.codeExecutionResult }]
  else if np.inlineData.isSome then
    cur ++ [{ inlineData := np.inlineData }]
  else if truthyThought np.thought then
    cur ++ [{ thought := np.thought, text := some (np.text.getD "") }]
  else
    cur

/-- The streaming reducer over one batch of incoming fragments, processed in
order against the last element of the sequence being built. -/
def reduce (cur : List Part) (incoming : List Part) : List Part :=
  List.foldl reduceOne cur incoming

/-- A pure Text fragment of the abstract model, embedded as a duck-typed
record carrying exactly a `text` field and a thought flag. -/
def mkText (t : String) (th : Option ThoughtVal) : Part :=
  { text := some t, thought := th }

/-- A pure ExecutableCode fragment. -/
def mkExec (language code : String) : Part :=
  { executableCode := some ⟨language, code⟩ }

/-- A pure CodeExecutionResult fragment. -/
def mkResult (outcome output : String) : Part :=
  { codeExecutionResult := some ⟨outcome, output⟩ }

/-- A pure InlineData fragment. -/
def mkInline (mimeType data : String) : Part :=
  { inlineData := some ⟨mimeType, data⟩ }

-- Sanity scenarios from the design notes.
example : reduce [] [mkText "Hello" none] = [mkText "Hello" none] := by decide
example : reduce [mkText "Hello" none] [mkText " world" none] =
    [mkText "Hello world" none] := by decide
example : reduce [] [mkExec "python" "a", mkExec "python" "b", mkExec "javascript" "c"] =
    [mkExec "python" "ab", mkExec "javascript" "c"] := by decide
example :
    reduce [] [mkText "a" none, mkText "b" (some (.bool true)), mkText "c" none] =
    [mkText "a" none, mkText "b" (some (.bool true)), mkText "c" none] := by decide

/-! ## Renderers

`renderPart` is the live renderer in `ChatMessageItem`; the export renderer is
the `msg.parts.map(part => ...)` body inside `generateHtmlFromMessages`.  Both
are abstracted to the block they emit for a part: the kind shown, its content
and the data the labels are computed from.  Interaction mechanics (collapse
state, markdown engine, styling) are outside the observable output compared
here, as is the transient streaming title of the live thought block. -/

/-- The observable block a renderer emits for one part.  `thoughtBlock` is the
collapsible labelled "Thought Process", `codeBlock lang code` the collapsible
labelled with the language, `resultBlock` the collapsible labelled "Execution
Result" with a success and error badge derived from the outcome, `textBlock`
inline markdown prose, `imageBlock` an inline image, `nothing` no output. -/
inductive RenderedPart where
  | thoughtBlock (content : String)
  | codeBlock (language code : String)
  | resultBlock (outcome output : String)
  | textBlock (content : String)
  | imageBlock (mimeType data : String)
  | nothing
deriving DecidableEq, Repr

/-- The live renderer's thought test:
`part.thought === true || (typeof part.thought === 'string' && part.thought.length > 0)`. -/
def liveThoughtCond (o : Option ThoughtVal) : Bool :=
  match o with
  | some (.bool b) => b
  | some (.str s) => s ≠ ""
  | none => false

/-- The thought content both renderers display:
`typeof part.thought === 'string' ? part.thought : (part.text || "")`. -/
def thoughtContent (p : Part) : String :=
  match p.thought with
  | some (.str s) => s
  | _ => p.text.getD ""

/-- The live renderer `renderPart` from `ChatMessageItem`: thought, then
executableCode, then codeExecutionResult, then text, then inlineData, else
null. -/
def renderPart (p : Part) : RenderedPart :=
  if liveThoughtCond p.thought then
    .thoughtBlock (thoughtContent p)
  else
    match p.executableCode with
    | some ec => .codeBlock ec.language ec.code
    | none =>
      match p.codeExecutionResult with
      | some r => .resultBlock r.outcome r.output
      | none =>
        if truthyStr p.text then
          .textBlock (p.text.getD "")
        else
          match p.inlineData with
          | some b => .imageBlock b.mimeType b.data
          | none => .nothing

/-- The export renderer from `generateHtmlFromMessages`: thought (but empty
thought text renders nothing), then executableCode, then codeExecutionResult,
then inlineData, then text, else nothing.  The thought branch computes
`typeof part.thought === 'string' ? part.thought : part.text` and bails out on
a falsy result. -/
def renderPartExport (p : Part) : RenderedPart :=
  if truthyThought p.thought then
    let thoughtText : Option String :=
      match p.thought with
      | some (.str s) => some s
      | _ => p.text
    if truthyStr thoughtText then .thoughtBlock (thoughtText.getD "") else .nothing
  else
    match p.executableCode with
    | some ec => .codeBlock ec.language ec.code
    | none =>
      match p.codeExecutionResult with
      | some r => .resultBlock r.outcome r.output
      | none =>
        match p.inlineData with
        | some b => .imageBlock b.mimeType b.data
        | none =>
          if truthyStr p.text then .textBlock (p.text.getD "") else .nothing

/-! ## Session controller

The transcript manipulation of `handleSendMessage`, with the asynchronous
stream replaced by the explicit list of fragment batches it delivered before
completing or failing.  Message ids and timestamps are opaque metadata the
claims never inspect and are omitted; the `lastMsg.id !== modelMessageId`
guard never fires in the single-writer sequential execution the component is
specified for.  The parsing of the data URL into mime type and base64 payload
is abstracted: `image` is the parsed attachment when the regex matched. -/

inductive Role where
  | user
  | model
deriving DecidableEq, Repr

/-- A transcript message: a role and an ordered part sequence. -/
structure ChatMessage where
  role : Role
  parts : List Part
deriving DecidableEq, Repr

/-- A serialized history turn sent upstream. -/
structure Content where
  role : Role
  parts : List Part
deriving DecidableEq, Repr

/-- How the upstream stream behaved on one send: it failed before yielding
(`sendMessageStream` threw), or it delivered `batches` and then either
completed or raised mid-stream. -/
inductive StreamRun where
  | initFail
  | run (batches : List (List Part)) (failed : Bool)
deriving DecidableEq, Repr

/-- The user message parts built at the top of `handleSendMessage`: the text
when non-empty, the parsed attachment when present, and a single-space text
part when both are missing. -/
def mkUserParts (text : String) (image : Option Blob) : List Part :=
  let withText : List Part := if text ≠ "" then [{ text := some text }] else []
  let withImage : List Part :=
    match image with
    | some b => withText ++ [{ inlineData := some b }]
    | none => withText
  if withImage = [] then [{ text := some " " }] else withImage

/-- The clean part built for the upstream history: copies `text` only when
present and non-empty, copies `inlineData`, `functionCall`,
`functionResponse`, `executableCode` and `codeExecutionResult`, drops the
locally added `thought` flag. -/
def cleanPart (p : Part) : Part :=
  { text :=
      match p.text with
      | some s => if s ≠ "" then some s else none
      | none => none,
    inlineData := p.inlineData,
    functionCall := p.functionCall,
    functionResponse := p.functionResponse,
    executableCode := p.executableCode,
    codeExecutionResult := p.codeExecutionResult }

/-- One transcript message serialized to a history turn: parts cleaned, parts
left without any field dropped (`Object.keys(p).length > 0`), and a
single-space text part substituted when nothing remains. -/
def serializeContent (m : ChatMessage) : Content :=
  let cleanParts := (m.parts.map cleanPart).filter (fun p => p ≠ ({} : Part))
  ⟨m.role, if cleanParts = [] then [{ text := some " " }] else cleanParts⟩

/-- The history serialization at the top of the `try` block. -/
def serializeHistory (msgs : List ChatMessage) : List Content :=
  msgs.map serializeContent

/-- The fixed apology text of the error path. -/
def apologyText : String := "Sorry, I encountered an error. Please try again."

/-- The synthetic model message appended by the `catch` block. -/
def apologyMessage : ChatMessage :=
  ⟨Role.model, [{ text := some apologyText }]⟩

/-- The transcript and loading flag after one full `handleSendMessage` call:
the user message is appended unconditionally; on a successful stream start an
empty model message is appended and its parts replaced by the reducer fold
over the delivered batches; the `catch` block appends the apology message; the
`finally` block clears the loading flag. -/
def handleSendMessage (msgs : List ChatMessage) (text : String) (image : Option Blob)
    (r : StreamRun) : List ChatMessage × Bool :=
  let msgs1 := msgs ++ [⟨Role.user, mkUserParts text image⟩]
  match r with
  | .initFail => (msgs1 ++ [apologyMessage], false)
  | .run batches failed =>
    let msgs2 := msgs1 ++ [⟨Role.model, List.foldl reduce [] batches⟩]
    if failed then (msgs2 ++ [apologyMessage], false) else (msgs2, false)

/-- The transcript at the moment a mid-stream error surfaces: the user
message, then the model message holding everything already streamed. -/
def transcriptAtError (msgs : List ChatMessage) (text : String) (image : Option Blob)
    (batches : List (List Part)) : List ChatMessage :=
  msgs ++ [⟨Role.user, mkUserParts text image⟩] ++
    [⟨Role.model, List.foldl reduce [] batches⟩]

/-! ## Heap-level reducer

The source never mutates an existing part object: the merge cases build fresh
objects with spreads and write them into a copied array.  To state this
copy-on-write discipline, the loop body is embedded once more at the level of
an explicit allocation heap: part instances live at addresses, the in-progress
sequence is a list of addresses, and every constructed object is a fresh
allocation.  `reduceOneH` performs exactly the allocations the loop body
performs and never writes to an existing cell. -/

abbrev Addr := Nat

/-- The object heap: the cell at address `a` is the part instance allocated
`a`-th. -/
abbrev Heap := List Part

/-- Read the part instance at an address. -/
def deref (h : Heap) (a : Addr) : Part :=
  h.getD a {}

/-- Allocate a fresh part instance, returning the grown heap and the fresh
address. -/
def alloc (h : Heap) (p : Part) : Heap × Addr :=
  (h ++ [p], h.length)

/-- The loop body of the streaming reducer at heap level: identical dispatch
to `reduceOne`, with every constructed object allocated fresh. -/
def reduceOneH (h : Heap) (cur : List Addr) (np : Part) : Heap × List Addr :=
  if truthyStr np.text then
    match cur.getLast? with
    | some la =>
      let lp := deref h la
      if isMergeableText lp np then
        let al := alloc h { lp with text := some (lp.text.getD "" ++ np.text.getD "") }
        (al.1, cur.dropLast ++ [al.2])
      else
        let al := alloc h { text := np.text, thought := np.thought }
        (al.1, cur ++ [al.2])
    | none =>
      let al := alloc h { text := np.text, thought := np.thought }
      (al.1, cur ++ [al.2])
  else if np.executableCode.isSome then
    match cur.getLast?, np.executableCode with
    | some la, some nec =>
      let lp := deref h la
      match lp.executableCode with
      | some lec =>
        if lec.language = nec.language then
          let al := alloc h
            { lp with executableCode := some { lec with code := lec.code ++ nec.code } }
          (al.1, cur.dropLast ++ [al.2])
        else
          let al := alloc h { executableCode := some nec }
          (al.1, cur ++ [al.2])
      | none =>
        let al := alloc h { executableCode := some nec }
        (al.1, cur ++ [al.2])
    | _, _ =>
      let al := alloc h { executableCode := np.executableCode }
      (al.1, cur ++ [al.2])
  else if np.codeExecutionResult.isSome then
    let al := alloc h { codeExecutionResult := np.codeExecutionResult }
    (al.1, cur ++ [al.2])
  else if np.inlineData.isSome then
    let al := alloc h { inlineData := np.inlineData }
    (al.1, cur ++ [al.2])
  else if truthyThought np.thought then
    let al := alloc h { thought := np.thought, text := some (np.text.getD "") }
    (al.1, cur ++ [al.2])
  else
    (h, cur)

/-- The heap-level reducer over one batch. -/
def reduceH (h : Heap) (cur : List Addr) (incoming : List Part) : Heap × List Addr :=
  List.foldl (fun s np => reduceOneH s.1 s.2 np) (h, cur) incoming

/-! ### List helper lemmas -/

theorem getLast?_map {α β : Type} (f : α → β) (l : List α) :
    (l.map f).getLast? = (l.getLast?).map f := by
  induction l with
  | nil => rfl
  | cons a l ih =>
    cases l with
    | nil => rfl
    | cons b l => simpa using ih

theorem deref_append {h fr : Heap} {a : Addr} (ha : a < h.length) :
    deref (h ++ fr) a = deref h a := by
  simp [deref, List.getD, List.getElem?_append, ha]

theorem deref_append_self (h : Heap) (p : Part) :
    deref (h ++ [p]) h.length = p := by
  simp [deref, List.getD]

/-! ### Copy-on-write lemmas for the heap-level reducer -/

/-- Structural case analysis of one heap-level step: either the fragment is
dropped and nothing changes, or exactly one fresh cell is allocated and its
address is pushed, or it replaces the last address. -/
theorem reduceOneH_cases (h : Heap) (cur : List Addr) (np : Part) :
    reduceOneH h cur np = (h, cur) ∨
    ∃ p, (reduceOneH h cur np).1 = h ++ [p] ∧
      ((reduceOneH h cur np).2 = cur ++ [h.length] ∨
       (reduceOneH h cur np).2 = cur.dropLast ++ [h.length]) := by
  simp only [reduceOneH, alloc]
  split
  · split
    · split
      · exact Or.inr ⟨_, rfl, Or.inr rfl⟩
      · exact Or.inr ⟨_, rfl, Or.inl rfl⟩
    · exact Or.inr ⟨_, rfl, Or.inl rfl⟩
  · split
    · split
      · split
        · split
          · exact Or.inr ⟨_, rfl, Or.inr rfl⟩
          · exact Or.inr ⟨_, rfl, Or.inl rfl⟩
        · exact Or.inr ⟨_, rfl, Or.inl rfl⟩
      · exact Or.inr ⟨_, rfl, Or.inl rfl⟩
    · split
      · exact Or.inr ⟨_, rfl, Or.inl rfl⟩
      · split
        · exact Or.inr ⟨_, rfl, Or.inl rfl⟩
        · split
          · exact Or.inr ⟨_, rfl, Or.inl rfl⟩
          · exact Or.inl rfl

/-- One reducer step only grows the heap: every pre-existing cell is intact. -/
theorem reduceOneH_heap_shape (h : Heap) (cur : List Addr) (np : Part) :
    ∃ fresh, (reduceOneH h cur np).1 = h ++ fresh := by
  rcases reduceOneH_cases h cur np with heq | ⟨p, h1, _⟩
  · exact ⟨[], by rw [heq]; simp⟩
  · exact ⟨[p], h1⟩

/-- One heap-level reducer step, read back through the final heap, computes
exactly the pure reducer step on the read-back input sequence. -/
theorem reduceOneH_refines (h : Heap) (cur : List Addr) (np : Part)
    (hv : ∀ a ∈ cur, a < h.length) :
    (reduceOneH h cur np).2.map (deref (reduceOneH h cur np).1)
      = reduceOne (cur.map (deref h)) np := by
  have hmap : ∀ p : Part, cur.map (deref (h ++ [p])) = cur.map (deref h) := by
    intro p
    exact List.map_congr_left fun a ha => deref_append (hv a ha)
  by_cases ht : truthyStr np.text
  · cases hc : cur.getLast? with
    | none =>
      simp [reduceOneH, reduceOne, alloc, ht, hc, getLast?_map, hmap, deref_append_self]
    | some la =>
      by_cases hm : isMergeableText (deref h la) np
      · simp [reduceOneH, reduceOne, alloc, ht, hc, getLast?_map, hm, hmap,
          deref_append_self]
      · simp [reduceOneH, reduceOne, alloc, ht, hc, getLast?_map, hm, hmap,
          deref_append_self]
  · by_cases he : np.executableCode.isSome
    · cases hec : np.executableCode with
      | none => simp [hec] at he
      | some nec =>
        cases hc : cur.getLast? with
        | none =>
          simp [reduceOneH, reduceOne, alloc, ht, hc, hec, getLast?_map, hmap,
            deref_append_self]
        | some la =>
          cases hlec : (deref h la).executableCode with
          | none =>
            simp [reduceOneH, reduceOne, alloc, ht, hc, hec, hlec, getLast?_map,
              hmap, deref_append_self]
          | some lec =>
            by_cases hl : lec.language = nec.language
            · simp [reduceOneH, reduceOne, alloc, ht, hc, hec, hlec, hl,
                getLast?_map, hmap, deref_append_self]
            · simp [reduceOneH, reduceOne, alloc, ht, hc, hec, hlec, hl,
                getLast?_map, hmap, deref_append_self]
    · by_cases hr : np.codeExecutionResult.isSome
      · simp [reduceOneH, reduceOne, alloc, ht, he, hr, hmap, deref_append_self]
      · by_cases hi : np.inlineData.isSome
        · simp [reduceOneH, reduceOne, alloc, ht, he, hr, hi, hmap, deref_append_self]
        · by_cases hth : truthyThought np.thought
          · simp [reduceOneH, reduceOne, alloc, ht, he, hr, hi, hth, hmap,
              deref_append_self]
          · simp [reduceOneH, reduceOne, alloc, ht, he, hr, hi, hth]

/-- Addresses returned by one step are valid in the resulting heap. -/
theorem reduceOneH_valid (h : Heap) (cur : List Addr) (np : Part)
    (hv : ∀ a ∈ cur, a < h.length) :
    ∀ a ∈ (reduceOneH h cur np).2, a < (reduceOneH h cur np).1.length := by
  rcases reduceOneH_cases h cur np with heq | ⟨p, h1, h2 | h2⟩
  · rw [heq]; exact hv
  · intro a ha
    rw [h2, List.mem_append] at ha
    rw [h1, List.length_append]
    rcases ha with ha | ha
    · exact lt_of_lt_of_le (hv a ha) (Nat.le_add_right _ _)
    · simp only [List.mem_singleton] at ha
      simp [ha]
  · intro a ha
    rw [h2, List.mem_append] at ha
    rw [h1, List.length_append]
    rcases ha with ha | ha
    · exact lt_of_lt_of_le (hv a (List.dropLast_subset _ ha)) (Nat.le_add_right _ _)
    · simp only [List.mem_singleton] at ha
      simp [ha]

/-- Every address returned by one step is either an address of the input
sequence or the address of a freshly allocated cell: merged and appended
elements are freshly constructed, never recycled mutated cells. -/
theorem reduceOneH_fresh (h : Heap) (cur : List Addr) (np : Part) :
    ∀ a ∈ (reduceOneH h cur np).2, a ∈ cur ∨ h.length ≤ a := by
  rcases reduceOneH_cases h cur np with heq | ⟨p, h1, h2 | h2⟩
  · rw [heq]; exact fun a ha => Or.inl ha
  · intro a ha
    rw [h2, List.mem_append] at ha
    rcases ha with ha | ha
    · exact Or.inl ha
    · simp only [List.mem_singleton] at ha
      exact Or.inr (le_of_eq ha.symm)
  · intro a ha
    rw [h2, List.mem_append] at ha
    rcases ha with ha | ha
    · exact Or.inl (List.dropLast_subset _ ha)
    · simp only [List.mem_singleton] at ha
      exact Or.inr (le_of_eq ha.symm)

theorem reduceH_nil (h : Heap) (cur : List Addr) : reduceH h cur [] = (h, cur) := rfl

theorem reduceH_cons (h : Heap) (cur : List Addr) (np : Part) (rest : List Part) :
    reduceH h cur (np :: rest) =
      reduceH (reduceOneH h cur np).1 (reduceOneH h cur np).2 rest := rfl

/-- Over a whole batch the heap only grows: no pre-existing part instance is
ever written to. -/
theorem reduceH_heap_shape (incoming : List Part) :
    ∀ (h : Heap) (cur : List Addr),
      ∃ fresh, (reduceH h cur incoming).1 = h ++ fresh := by
  induction incoming with
  | nil => exact fun h cur => ⟨[], by simp [reduceH_nil]⟩
  | cons np rest ih =>
    intro h cur
    obtain ⟨f1, h1⟩ := reduceOneH_heap_shape h cur np
    obtain ⟨f2, h2⟩ := ih (reduceOneH h cur np).1 (reduceOneH h cur np).2
    refine ⟨f1 ++ f2, ?_⟩
    rw [reduceH_cons, h2, h1, List.append_assoc]

/-- Addresses stay valid across a whole batch. -/
theorem reduceH_valid (incoming : List Part) :
    ∀ (h : Heap) (cur : List Addr), (∀ a ∈ cur, a < h.length) →
      ∀ a ∈ (reduceH h cur incoming).2, a < (reduceH h cur incoming).1.length := by
  induction incoming with
  | nil => intro h cur hv; simpa [reduceH_nil] using hv
  | cons np rest ih =>
    intro h cur hv
    rw [reduceH_cons]
    exact ih _ _ (reduceOneH_valid h cur np hv)

/-- The heap-level reducer refines the pure reducer over a whole batch. -/
theorem reduceH_refines (incoming : List Part) :
    ∀ (h : Heap) (cur : List Addr), (∀ a ∈ cur, a < h.length) →
      (reduceH h cur incoming).2.map (deref (reduceH h cur incoming).1)
        = reduce (cur.map (deref h)) incoming := by
  induction incoming with
  | nil => intro h cur _; simp [reduceH_nil, reduce]
  | cons np rest ih =>
    intro h cur hv
    rw [reduceH_cons]
    have hstep := reduceOneH_refines h cur np hv
    have := ih (reduceOneH h cur np).1 (reduceOneH h cur np).2
      (reduceOneH_valid h cur np hv)
    rw [this, hstep]
    rfl

/-- Every address a whole batch returns is an input address or a fresh one. -/
theorem reduceH_fresh (incoming : List Part) :
    ∀ (h : Heap) (cur : List Addr),
      ∀ a ∈ (reduceH h cur incoming).2, a ∈ cur ∨ h.length ≤ a := by
  induction incoming with
  | nil => intro h cur a ha; exact Or.inl (by simpa [reduceH_nil] using ha)
  | cons np rest ih =>
    intro h cur a ha
    rw [reduceH_cons] at ha
    obtain ⟨f1, h1⟩ := reduceOneH_heap_shape h cur np
    rcases ih (reduceOneH h cur np).1 (reduceOneH h cur np).2 a ha with hmem | hge
    · rcases reduceOneH_fresh h cur np a hmem with hmem' | hge'
      · exact Or.inl hmem'
      · exact Or.inr hge'
    · refine Or.inr (le_trans ?_ hge)
      rw [h1]
      simp

/-! ## Claim theorems -/

/-- The merge condition as the specification words it for an incoming Text
fragment: the last element is a text element carrying no `executableCode`,
`codeExecutionResult` or `inlineData` field, and its thought flag (absent
counting as false) equals the incoming fragment's flag. -/
def claimMergeableText (lp : Part) (th : Option ThoughtVal) : Bool :=
  lp.text.isSome && lp.executableCode.isNone && lp.codeExecutionResult.isNone &&
  lp.inlineData.isNone && (truthyThought lp.thought == truthyThought th)

/-- C1 (amended: restricted to Text fragments with non-empty content; an
empty-content Text fragment never reaches the text rule, see C2).  For every
current sequence and every incoming Text fragment with non-empty content, the
reducer concatenates the fragment's text onto the last element exactly when
that last element is a text element carrying no executableCode,
codeExecutionResult or inlineData field whose thought flag (absent counting
as false on both sides) equals the incoming fragment's flag; otherwise a new
Text element is appended at the end. -/
theorem nonempty_text_merge_iff (cur : List Part) (t : String) (th : Option ThoughtVal)
    (ht : t ≠ "") :
    reduceOne cur (mkText t th) =
      match cur.getLast? with
      | some lp =>
        if claimMergeableText lp th then
          cur.dropLast ++ [{ lp with text := some (lp.text.getD "" ++ t) }]
        else cur ++ [mkText t th]
      | none => cur ++ [mkText t th] := by
  cases hc : cur.getLast? with
  | none => simp [reduceOne, truthyStr, hc, mkText, ht]
  | some lp =>
    have hiff : isMergeableText lp ({ text := some t, thought := th } : Part)
        = claimMergeableText lp th := by
      simp [isMergeableText, claimMergeableText]
    by_cases hm : claimMergeableText lp th
    · simp [reduceOne, truthyStr, hc, mkText, ht, hiff, hm]
    · simp [reduceOne, truthyStr, hc, mkText, ht, hiff, hm]

/-- Witness for C1: a non-empty fragment merging into a matching last text
element. -/
theorem nonempty_text_merge_iff_witness :
    reduceOne [mkText "a" none] (mkText "hi" none) = [mkText "ahi" none] := by
  rw [nonempty_text_merge_iff [mkText "a" none] "hi" none (by decide)]
  decide

/-- Counterexample to C1 as stated: with a matching thought-flagged text
element last, an incoming thought Text fragment with empty content is not
concatenated onto it — the code's `if (newPart.text)` truthiness test sends
it to the thought fall-through branch, which appends a fresh element.  The
claim predicts the one-element merged sequence; the code produces two
elements. -/
theorem empty_thought_text_appended_not_merged :
    reduceOne [mkText "a" (some (.bool true))] (mkText "" (some (.bool true)))
      = [mkText "a" (some (.bool true)), mkText "" (some (.bool true))] ∧
    [mkText "a" (some (.bool true)), mkText "" (some (.bool true))]
      ≠ [mkText "a" (some (.bool true))] := by
  constructor
  · decide
  · decide

/-- Counterexample to C2 as stated: an incoming Text fragment whose content
is the empty string and whose thought flag is absent is dropped silently —
no zero-length Text element is appended and nothing is merged. -/
theorem empty_text_fragment_dropped :
    reduceOne [] (mkText "" none) = [] := by decide

/-- C2 (amended): an empty-content Text fragment with falsy thought flag is
dropped silently; an empty-content fragment with truthy thought flag is
appended as a new zero-length thought Text element, never merged, even when
the last element matches; an empty-string text element already at the end of
the sequence remains a valid merge target. -/
theorem empty_text_fragment_behavior :
    (∀ (cur : List Part) (th : Option ThoughtVal), truthyThought th = false →
        reduceOne cur (mkText "" th) = cur) ∧
    (∀ (cur : List Part) (th : Option ThoughtVal), truthyThought th = true →
        reduceOne cur (mkText "" th) = cur ++ [mkText "" th]) ∧
    reduceOne [mkText "" none] (mkText "hi" none) = [mkText "hi" none] := by
  refine ⟨?_, ?_, by decide⟩
  · intro cur th h
    simp [reduceOne, mkText, truthyStr, h]
  · intro cur th h
    simp [reduceOne, mkText, truthyStr, h]

/-- Witness for C2 (amended): a zero-length thought fragment is appended even
after a matching thought element. -/
theorem empty_text_fragment_behavior_witness :
    reduceOne [] (mkText "" (some (.bool true)))
      = [] ++ [mkText "" (some (.bool true))] :=
  empty_text_fragment_behavior.2.1 [] (some (.bool true)) (by decide)

/-- C5: an incoming ExecutableCode fragment merges (code concatenated) into
the last element exactly when that element carries an `executableCode` field
with an identical language; fragments with two different languages never
merge, and a non-matching fragment is appended as a new ExecutableCode
element. -/
theorem exec_code_merge_iff (cur : List Part) (lang code : String) :
    reduceOne cur (mkExec lang code) =
      match cur.getLast? with
      | some lp =>
        match lp.executableCode with
        | some lec =>
          if lec.language = lang then
            cur.dropLast ++
              [{ lp with executableCode := some ⟨lec.language, lec.code ++ code⟩ }]
          else cur ++ [mkExec lang code]
        | none => cur ++ [mkExec lang code]
      | none => cur ++ [mkExec lang code] := by
  cases hc : cur.getLast? with
  | none => simp [reduceOne, truthyStr, hc, mkExec]
  | some lp =>
    cases hlec : lp.executableCode with
    | none => simp [reduceOne, truthyStr, hc, hlec, mkExec]
    | some lec =>
      by_cases hl : lec.language = lang
      · simp [reduceOne, truthyStr, hc, hlec, hl, mkExec]
      · simp [reduceOne, truthyStr, hc, hlec, hl, mkExec]

/-- C6: every incoming CodeExecutionResult fragment and every incoming
InlineData fragment is appended as a new element, never merged; two
consecutive result fragments sharing an outcome yield two distinct
elements. -/
theorem result_inline_always_appended :
    (∀ (cur : List Part) (outcome output : String),
        reduceOne cur (mkResult outcome output) = cur ++ [mkResult outcome output]) ∧
    (∀ (cur : List Part) (mimeType data : String),
        reduceOne cur (mkInline mimeType data) = cur ++ [mkInline mimeType data]) ∧
    (∀ (cur : List Part) (outcome o1 o2 : String),
        reduce cur [mkResult outcome o1, mkResult outcome o2]
          = cur ++ [mkResult outcome o1, mkResult outcome o2]) := by
  have hres : ∀ (cur : List Part) (outcome output : String),
      reduceOne cur (mkResult outcome output) = cur ++ [mkResult outcome output] := by
    intro cur outcome output
    simp [reduceOne, mkResult, truthyStr]
  refine ⟨hres, ?_, ?_⟩
  · intro cur mimeType data
    simp [reduceOne, mkInline, truthyStr]
  · intro cur outcome o1 o2
    show reduceOne (reduceOne cur (mkResult outcome o1)) (mkResult outcome o2) = _
    rw [hres, hres, List.append_assoc]
    rfl

/-- C7: the streaming reducer is pure copy-on-write.  At heap level, the
final heap extends the initial one (no pre-existing Part instance is written
to), the addresses read back through the final heap compute exactly the pure
reducer on the read-back input, and every address in the result is either an
input address or freshly allocated — merged elements are fresh constructions,
so every previously existing Part instance is unchanged afterward. -/
theorem reducer_copy_on_write (h : Heap) (cur : List Addr) (incoming : List Part)
    (hv : ∀ a ∈ cur, a < h.length) :
    (∃ fresh, (reduceH h cur incoming).1 = h ++ fresh) ∧
    ((reduceH h cur incoming).2.map (deref (reduceH h cur incoming).1)
      = reduce (cur.map (deref h)) incoming) ∧
    (∀ a ∈ (reduceH h cur incoming).2, a ∈ cur ∨ h.length ≤ a) :=
  ⟨reduceH_heap_shape incoming h cur, reduceH_refines incoming h cur hv,
   reduceH_fresh incoming h cur⟩

/-- Witness for C7 at a one-cell heap and a one-fragment batch. -/
theorem reducer_copy_on_write_witness :
    (∃ fresh, (reduceH [mkText "a" none] [0] [mkText "b" none]).1
        = [mkText "a" none] ++ fresh) ∧
    ((reduceH [mkText "a" none] [0] [mkText "b" none]).2.map
        (deref (reduceH [mkText "a" none] [0] [mkText "b" none]).1)
      = reduce ([0].map (deref [mkText "a" none])) [mkText "b" none]) ∧
    (∀ a ∈ (reduceH [mkText "a" none] [0] [mkText "b" none]).2,
        a ∈ [0] ∨ [mkText "a" none].length ≤ a) :=
  reducer_copy_on_write [mkText "a" none] [0] [mkText "b" none] (by decide)

/-! ### Renderer claims -/

/-- The kind of part a rendered block shows. -/
inductive PartKind where
  | thought
  | code
  | result
  | text
  | image
deriving DecidableEq, Repr

/-- The kind shown by a rendered block, `none` when nothing is rendered. -/
def kindOf : RenderedPart → Option PartKind
  | .thoughtBlock _ => some .thought
  | .codeBlock _ _ => some .code
  | .resultBlock _ _ => some .result
  | .textBlock _ => some .text
  | .imageBlock _ _ => some .image
  | .nothing => none

/-- The fixed priority order the claim states for the live renderer, written
from the claim's words: thought, then executableCode, then
codeExecutionResult, then text, then inlineData.  A field is "carried" in the
code's duck-typed sense: present with truthy content (`thought: false` and
`text: ""` count as not carried). -/
def claimPriorityKind (p : Part) : Option PartKind :=
  if liveThoughtCond p.thought then some .thought
  else if p.executableCode.isSome then some .code
  else if p.codeExecutionResult.isSome then some .result
  else if truthyStr p.text then some .text
  else if p.inlineData.isSome then some .image
  else none

/-- C10: the live renderer shows exactly one kind per part, chosen by the
fixed priority order thought, executableCode, codeExecutionResult, text,
inlineData; a part carrying both non-empty text and inlineData renders only
its text; a part with none of the fields renders nothing. -/
theorem render_priority :
    (∀ p : Part, kindOf (renderPart p) = claimPriorityKind p) ∧
    (∀ (t : String) (b : Blob), t ≠ "" →
        renderPart { text := some t, inlineData := some b } = .textBlock t) ∧
    renderPart {} = .nothing := by
  refine ⟨?_, ?_, by decide⟩
  · intro p
    by_cases hth : liveThoughtCond p.thought
    · simp [renderPart, claimPriorityKind, kindOf, hth]
    · cases hec : p.executableCode with
      | some ec => simp [renderPart, claimPriorityKind, kindOf, hth, hec]
      | none =>
        cases hr : p.codeExecutionResult with
        | some r => simp [renderPart, claimPriorityKind, kindOf, hth, hec, hr]
        | none =>
          by_cases htx : truthyStr p.text
          · simp [renderPart, claimPriorityKind, kindOf, hth, hec, hr, htx]
          · cases hid : p.inlineData with
            | some b => simp [renderPart, claimPriorityKind, kindOf, hth, hec, hr, htx, hid]
            | none => simp [renderPart, claimPriorityKind, kindOf, hth, hec, hr, htx, hid]
  · intro t b ht
    simp [renderPart, liveThoughtCond, truthyStr, ht]

/-- Witness for C10: a part carrying both text and inlineData renders its
text in the live view. -/
theorem render_priority_witness :
    renderPart { text := some "x", inlineData := some ⟨"image/png", "AA"⟩ }
      = .textBlock "x" :=
  render_priority.2.1 "x" ⟨"image/png", "AA"⟩ (by decide)

/-- Counterexample to C4 as stated: a part whose thought flag is set but
whose text is empty — exactly what the reducer produces for a thought-only
stream fragment — renders a collapsible "Thought Process" block in the live
view but nothing in the exported document, so the two surfaces do not agree
on which part kind is shown. -/
theorem render_surfaces_disagree_on_empty_thought :
    renderPart { thought := some (.bool true), text := some "" }
      = .thoughtBlock "" ∧
    renderPartExport { thought := some (.bool true), text := some "" }
      = .nothing ∧
    reduceOne [] ({ thought := some (.bool true) } : Part)
      = [{ thought := some (.bool true), text := some "" }] := by
  refine ⟨by decide, by decide, by decide⟩

/-- The first divergent configuration between the two renderer surfaces: a
truthily thought-flagged part whose displayed thought content is empty (a
boolean flag with empty or absent text). -/
def divergEmptyThought (p : Part) : Bool :=
  truthyThought p.thought &&
  (match p.thought with
   | some (.str _) => false
   | _ => !truthyStr p.text)

/-- The second divergent configuration: a non-thought part carrying both
non-empty text and inlineData with no code or result field — the live view
shows the text, the export shows the image. -/
def divergTextImage (p : Part) : Bool :=
  !truthyThought p.thought && p.executableCode.isNone &&
  p.codeExecutionResult.isNone && truthyStr p.text && p.inlineData.isSome

theorem liveThoughtCond_eq (o : Option ThoughtVal) :
    liveThoughtCond o = truthyThought o := by
  cases o with
  | none => rfl
  | some tv => cases tv <;> rfl

/-- Outside the thought branch the two renderers agree whenever the part does
not carry both truthy text and inlineData. -/
theorem render_agree_of_not_thought (p : Part) (hth : truthyThought p.thought = false)
    (h2 : divergTextImage p = false) :
    renderPart p = renderPartExport p := by
  have hlv : liveThoughtCond p.thought = false := by
    rw [liveThoughtCond_eq]; exact hth
  cases hec : p.executableCode with
  | some ec => simp [renderPart, renderPartExport, hlv, hth, hec]
  | none =>
    cases hr : p.codeExecutionResult with
    | some r => simp [renderPart, renderPartExport, hlv, hth, hec, hr]
    | none =>
      cases hid : p.inlineData with
      | some b =>
        have htx : truthyStr p.text = false := by
          simpa [divergTextImage, hth, hec, hr, hid] using h2
        simp [renderPart, renderPartExport, hlv, hth, hec, hr, hid, htx]
      | none =>
        by_cases htx : truthyStr p.text
        · simp [renderPart, renderPartExport, hlv, hth, hec, hr, hid, htx]
        · simp [renderPart, renderPartExport, hlv, hth, hec, hr, hid, htx]

/-- C4 (amended): for every part outside the two divergent configurations —
(i) a thought-flagged part whose displayed thought content is empty, where
the live view shows an empty "Thought Process" block and the export shows
nothing, and (ii) a part carrying both non-empty text and inlineData and no
higher-priority field, where the live view shows the text and the export the
image — the live renderer and the export renderer emit the same block: same
part kind, same content, same labelling data, in the same per-part order. -/
theorem render_surfaces_agree_off_divergence (p : Part)
    (h1 : divergEmptyThought p = false) (h2 : divergTextImage p = false) :
    renderPart p = renderPartExport p := by
  cases hth : p.thought with
  | none =>
    exact render_agree_of_not_thought p (by simp [truthyThought, hth]) h2
  | some tv =>
    cases tv with
    | bool b =>
      cases b with
      | false =>
        exact render_agree_of_not_thought p (by simp [truthyThought, hth]) h2
      | true =>
        have htx : truthyStr p.text = true := by
          simpa [divergEmptyThought, truthyThought, hth] using h1
        simp [renderPart, renderPartExport, liveThoughtCond, truthyThought, hth,
          thoughtContent, htx]
    | str s =>
      by_cases hs : s = ""
      · exact render_agree_of_not_thought p (by simp [truthyThought, hth, hs]) h2
      · simp [renderPart, renderPartExport, liveThoughtCond, truthyThought, truthyStr,
          hth, hs, thoughtContent]

/-- Witness for C4 (amended): a plain text part renders identically on both
surfaces. -/
theorem render_surfaces_agree_off_divergence_witness :
    renderPart (mkText "hi" none) = renderPartExport (mkText "hi" none) :=
  render_surfaces_agree_off_divergence (mkText "hi" none) (by decide) (by decide)

/-! ### Session claims -/

/-- Counterexample to C3 as stated: the model placeholder message is
committed to the transcript with an empty `parts` sequence and remains empty
when the stream yields nothing — and the no-content representation the code
actually uses for a user turn is a single-space text part, not an empty-text
part. -/
theorem model_message_committed_empty :
    (handleSendMessage [] "hi" none (.run [] false)).1
      = [⟨Role.user, [{ text := some "hi" }]⟩, ⟨Role.model, []⟩] ∧
    mkUserParts "" none = [{ text := some " " }] ∧
    ({ text := some " " } : Part) ≠ { text := some "" } := by
  refine ⟨by decide, by decide, by decide⟩

/-- C3 (amended): every user message is committed with a non-empty parts
sequence — a user turn with no content is represented as a single Part
containing a single space — and the synthetic apology message has a
non-empty text part; a model message, however, is committed with an
initially empty parts sequence. -/
theorem committed_parts_nonempty_amended :
    (∀ (text : String) (image : Option Blob), mkUserParts text image ≠ []) ∧
    mkUserParts "" none = [{ text := some " " }] ∧
    apologyMessage.parts = [{ text := some apologyText }] := by
  refine ⟨?_, by decide, rfl⟩
  intro text image
  by_cases htext : text = ""
  · cases image with
    | none => simp [mkUserParts, htext]
    | some b => simp [mkUserParts, htext]
  · cases image with
    | none => simp [mkUserParts, htext]
    | some b => simp [mkUserParts, htext]

/-- Witness for C3 (amended): a text-only user turn yields non-empty parts. -/
theorem committed_parts_nonempty_amended_witness :
    mkUserParts "x" none ≠ [] :=
  committed_parts_nonempty_amended.1 "x" none

/-- Pointwise shape of one serialized history turn: role preserved, parts
non-empty, the locally added thought flag stripped, no contentless or
empty-text part retained, and the single-space substitution exactly when
nothing remains. -/
theorem serializeContent_spec (m : ChatMessage) :
    (serializeContent m).role = m.role ∧
    (serializeContent m).parts ≠ [] ∧
    (∀ p ∈ (serializeContent m).parts, p.thought = none) ∧
    (∀ p ∈ (serializeContent m).parts, p ≠ ({} : Part) ∧ p.text ≠ some "") ∧
    (((m.parts.map cleanPart).filter (fun q => q ≠ ({} : Part)) = []) →
      (serializeContent m).parts = [{ text := some " " }]) := by
  have hth : ∀ q : Part, (cleanPart q).thought = none := fun q => rfl
  have htx : ∀ q : Part, (cleanPart q).text ≠ some "" := by
    intro q
    cases hq : q.text with
    | none => simp [cleanPart, hq]
    | some s =>
      by_cases hs : s = ""
      · simp [cleanPart, hq, hs]
      · simp [cleanPart, hq, hs]
  have hparts : (serializeContent m).parts
      = if (m.parts.map cleanPart).filter (fun q => q ≠ ({} : Part)) = []
        then [{ text := some " " }]
        else (m.parts.map cleanPart).filter (fun q => q ≠ ({} : Part)) := rfl
  by_cases hcp : (m.parts.map cleanPart).filter (fun q => q ≠ ({} : Part)) = []
  · refine ⟨rfl, ?_, ?_, ?_, fun _ => ?_⟩
    · rw [hparts, if_pos hcp]
      simp
    · intro p hp
      rw [hparts, if_pos hcp] at hp
      rw [List.mem_singleton.mp hp]
    · intro p hp
      rw [hparts, if_pos hcp] at hp
      rw [List.mem_singleton.mp hp]
      exact ⟨by decide, by decide⟩
    · rw [hparts, if_pos hcp]
  · refine ⟨rfl, ?_, ?_, ?_, fun hc => absurd hc hcp⟩
    · rw [hparts, if_neg hcp]
      exact hcp
    · intro p hp
      rw [hparts, if_neg hcp] at hp
      obtain ⟨hpmem, -⟩ := List.mem_filter.mp hp
      obtain ⟨q, -, hq⟩ := List.mem_map.mp hpmem
      rw [← hq]
      exact hth q
    · intro p hp
      rw [hparts, if_neg hcp] at hp
      obtain ⟨hpmem, hne⟩ := List.mem_filter.mp hp
      obtain ⟨q, -, hq⟩ := List.mem_map.mp hpmem
      refine ⟨by simpa using hne, ?_⟩
      rw [← hq]
      exact htx q

/-- C8: serializing a transcript into the upstream history shape preserves
roles and, per turn, strips the locally added thought flag from every part,
omits parts left with no content (empty-text parts included), never produces
an empty turn, and substitutes a single-space text part exactly when a turn
would otherwise have no parts. -/
theorem serialize_history_shape (msgs : List ChatMessage) :
    List.Forall₂
      (fun (m : ChatMessage) (c : Content) =>
        c.role = m.role ∧
        c.parts ≠ [] ∧
        (∀ p ∈ c.parts, p.thought = none) ∧
        (∀ p ∈ c.parts, p ≠ ({} : Part) ∧ p.text ≠ some "") ∧
        (((m.parts.map cleanPart).filter (fun q => q ≠ ({} : Part)) = []) →
          c.parts = [{ text := some " " }]))
      msgs (serializeHistory msgs) := by
  rw [serializeHistory, List.forall₂_map_right_iff]
  exact List.forall₂_same.mpr fun m _ => serializeContent_spec m

/-- Witness for C8 on a two-turn transcript: one turn with a thought-flagged
text part and one with only an empty-text part. -/
theorem serialize_history_shape_witness :
    List.Forall₂
      (fun (m : ChatMessage) (c : Content) =>
        c.role = m.role ∧
        c.parts ≠ [] ∧
        (∀ p ∈ c.parts, p.thought = none) ∧
        (∀ p ∈ c.parts, p ≠ ({} : Part) ∧ p.text ≠ some "") ∧
        (((m.parts.map cleanPart).filter (fun q => q ≠ ({} : Part)) = []) →
          c.parts = [{ text := some " " }]))
      [⟨Role.model, [mkText "t" (some (.bool true))]⟩, ⟨Role.user, [mkText "" none]⟩]
      (serializeHistory
        [⟨Role.model, [mkText "t" (some (.bool true))]⟩, ⟨Role.user, [mkText "" none]⟩]) :=
  serialize_history_shape
    [⟨Role.model, [mkText "t" (some (.bool true))]⟩, ⟨Role.user, [mkText "" none]⟩]

/-- C9: on an upstream stream failure the session appends exactly one
synthetic model message carrying the fixed apology text after the transcript
as it stood at the error (so everything already streamed is kept, as a
prefix), both for a failure before the stream starts and for a mid-stream
failure, and the loading flag is cleared so the input surface is re-enabled. -/
theorem stream_failure_handling (msgs : List ChatMessage) (text : String)
    (image : Option Blob) (batches : List (List Part)) :
    handleSendMessage msgs text image (.run batches true)
      = (transcriptAtError msgs text image batches ++ [apologyMessage], false) ∧
    handleSendMessage msgs text image .initFail
      = (msgs ++ [⟨Role.user, mkUserParts text image⟩] ++ [apologyMessage], false) ∧
    apologyMessage = ⟨Role.model, [{ text := some apologyText }]⟩ := by
  refine ⟨?_, ?_, rfl⟩
  · simp [handleSendMessage, transcriptAtError]
  · simp [handleSendMessage]

end AgenticVision
